import Mathlib

/-! # go-nsupdate: the `main` driver

A shallow embedding of `src/main.go`.  `main` is sequential glue code: it
resolves the DNS name and the hostname, builds the `Update` value, and then
drives the update engine (`Init`, `InitTSIG`, `Start`, `Update`, `Done`) and
the address source (`InterfaceAddrs`, `Read`).  The engine, the address source,
the operating system and the Go standard library are not part of `main.go`;
they are taken as an environment `Env` of total functions over an abstract
world state.  A run of `main` is the list of events (calls with their
arguments and results, and log lines) it produces, together with its outcome.
-/

namespace NSUpdate

/-! ## Values -/

/-- The result of a fallible call: a value, or an error carrying its message. -/
inductive Result (α : Type) where
  | ok (a : α)
  | err (msg : String)
  deriving DecidableEq, Repr

/-- The address family option (value-name `ipv4|ipv6|all`, main.go line 19). -/
inductive Family where
  | ipv4
  | ipv6
  | all
  deriving DecidableEq, Repr

/-- The Go type `TSIGAlgorithm` is a string naming the algorithm. -/
abbrev TSIGAlgorithm := String

/-- The Go type `time.Duration`: a signed count of nanoseconds. -/
abbrev Duration := Int

/-- The constant `time.Second`, in nanoseconds. -/
def Second : Duration := 1000000000

/-- The struct `Options` (main.go lines 13-35); `Name` is `Args.Name`. -/
structure Options where
  Verbose : Bool
  Watch : Bool
  Interface : String
  InterfaceFamily : Family
  Server : String
  Timeout : Duration
  Retry : Duration
  TSIGName : String
  TSIGSecret : String
  TSIGAlgorithm : TSIGAlgorithm
  Zone : String
  TTL : Duration
  Hostname : String
  Name : String
  deriving DecidableEq, Repr

/-- The constant `SerializeFile` (main.go line 38). -/
def SerializeFile : String := "/opt/bcloud/node.db"

/-- The constant `TSIG` (main.go line 39): the compiled-in secret. -/
def TSIG : String :=
  "/mpNYBgjQUD1ZY9lFRGDabdZu0jxypHIJCI4HquSeEL1IVeuqB6rsc/wBLATpG8XngZHJBCSgkUWfRbjPL/MIA=="

/-- The struct `Node` (main.go lines 42-45). -/
structure Node where
  Bcode : String
  Email : String
  deriving DecidableEq, Repr

/-- The fields of the `Update` value that `main` sets (main.go lines 76-81). -/
structure Update where
  ttl : Int
  timeout : Duration
  retry : Duration
  verbose : Bool
  deriving DecidableEq, Repr

/-! ## Floating point: `Duration.Seconds` and the conversion to `int`

A finite `float64` is a rational number, and every IEEE-754 operation returns
the exact result rounded to the nearest `float64`, ties to even.  `roundF64`
is that rounding with a 53-bit significand and an unbounded exponent; for a
`Duration` (an int64) every intermediate value of `Seconds` is `0` or has
magnitude between `2^-30` and `2^34`, where no overflow or subnormal occurs. -/

/-- Rounding of a rational to the nearest integer, ties to the even one. -/
def roundHalfEven (q : ℚ) : ℤ :=
  let f : ℤ := ⌊q⌋
  let r : ℚ := q - f
  if r < 1 / 2 then f
  else if 1 / 2 < r then f + 1
  else if f % 2 = 0 then f else f + 1

/-- Rounding of an exact result to `float64`: the significand is scaled into
`[2^52, 2^53)`, rounded to an integer (ties to even) and scaled back. -/
def roundF64 (q : ℚ) : ℚ :=
  if q = 0 then 0
  else
    let e : ℤ := Int.log 2 |q| - 52
    (roundHalfEven (q / (2 : ℚ) ^ e) : ℚ) * (2 : ℚ) ^ e

/-- The method `time.Duration.Seconds`:
`sec := d / Second; nsec := d % Second; return float64(sec) + float64(nsec)/1e9`,
with the truncating integer division and remainder of Go. -/
def Duration.Seconds (d : Duration) : ℚ :=
  let sec : Int := Int.tdiv d Second
  let nsec : Int := Int.tmod d Second
  roundF64 (roundF64 (sec : ℚ) + roundF64 (roundF64 (nsec : ℚ) / 1000000000))

/-- The Go conversion `int(f)` of a float: the fraction is discarded
(truncation towards zero). -/
def floatToInt (f : ℚ) : Int :=
  if 0 ≤ f then ⌊f⌋ else ⌈f⌉

/-- The `Update` literal of main.go lines 76-81. -/
def mkUpdate (options : Options) : Update :=
  { ttl := floatToInt (Duration.Seconds options.TTL)
    timeout := options.Timeout
    retry := options.Retry
    verbose := options.Verbose }

/-! ## Events and runs -/

/-- One observable step of `main`: a call with its arguments and its result,
or a log line.  `fatalf` is `log.Fatalf`, which ends the process with status 1. -/
inductive Event where
  | readFile (path : String) (res : Result (List UInt8))
  | osHostname (res : Result String)
  | init (u : Update) (name zone server hostname : String) (err : Option String)
  | initTSIG (name secret : String) (algo : TSIGAlgorithm)
  | interfaceAddrs (iface : String) (family : Family) (err : Option String)
  | start
  | update (err : Option String)
  | read (err : Option String)
  | done (err : Option String)
  | printf (msg : String)
  | fatalf (msg : String)
  deriving DecidableEq, Repr

/-- How a piece of the program ends: it falls through with a value, the
process exits with a status, or the step budget of the loop ran out while the
program was still running. -/
inductive Outcome (α : Type) where
  | ok (a : α)
  | exit (code : Nat)
  | running
  deriving DecidableEq, Repr

/-- The events a piece of the program produced, the world it left behind, and
its outcome. -/
structure Res (σ α : Type) where
  trace : List Event
  world : σ
  out : Outcome α

/-- The same piece of program with earlier events put in front of its trace. -/
def Res.prepend {σ α : Type} (tr : List Event) (r : Res σ α) : Res σ α :=
  ⟨tr ++ r.trace, r.world, r.out⟩

/-- Sequencing: the second piece runs only when the first fell through. -/
def Res.andThen {σ α β : Type} (r : Res σ α) (f : α → σ → Res σ β) : Res σ β :=
  match r.out with
  | .ok a => (f a r.world).prepend r.trace
  | .exit c => ⟨r.trace, r.world, .exit c⟩
  | .running => ⟨r.trace, r.world, .running⟩

/-- Everything outside main.go that `main` calls, as total functions over a
world state `σ` (which holds the file system, the engine state and the
address set).  An `Option String` result is a Go `error`: `none` is `nil`. -/
structure Env (σ : Type) where
  readFile : String → σ → Result (List UInt8) × σ
  unmarshal : List UInt8 → Result Node
  osHostname : σ → Result String × σ
  init : Update → String → String → String → String → σ → Option String × σ
  initTSIG : String → String → TSIGAlgorithm → σ → σ
  interfaceAddrs : String → Family → σ → Option String × σ
  start : σ → σ
  update : σ → Option String × σ
  read : σ → Option String × σ
  done : σ → Option String × σ

/-! ## The program -/

/-- The alternatives of the pattern `^(dc|ms|edge)-` (main.go line 85). -/
def hostnameAlternatives : List String := ["dc", "ms", "edge"]

/-- The call `regexp.MatchString("^(dc|ms|edge)-", h)`: the text starts with
one of the alternatives followed by a dash. -/
def matchHostname (h : String) : Bool :=
  hostnameAlternatives.any fun p => (p ++ "-").data.isPrefixOf h.data

/-- Lines 55-74 of main.go: the DNS name.  A given name is kept; otherwise the
node record file is read and decoded. -/
def resolveName {σ : Type} (env : Env σ) (options : Options) (w : σ) : Res σ String :=
  if options.Name = "" then
    match env.readFile SerializeFile w with
    | (.err e, w1) =>
      ⟨[.readFile SerializeFile (.err e), .fatalf "fail to get name"], w1, .exit 1⟩
    | (.ok j, w1) =>
      if j.length = 0 then
        ⟨[.readFile SerializeFile (.ok j), .fatalf "fail to get name"], w1, .exit 1⟩
      else
        match env.unmarshal j with
        | .err _ =>
          ⟨[.readFile SerializeFile (.ok j), .fatalf "fail to get name"], w1, .exit 1⟩
        | .ok node =>
          let name := node.Bcode ++ "." ++ options.Zone
          ⟨[.readFile SerializeFile (.ok j), .printf ("get name " ++ name)], w1, .ok name⟩
  else
    ⟨[.printf ("get name " ++ options.Name)], w, .ok options.Name⟩

/-- Lines 83-90 of main.go: the hostname.  `os.Hostname` returns the empty
string together with its error, and the error is dropped. -/
def resolveHostname {σ : Type} (env : Env σ) (options : Options) (w : σ) : Res σ String :=
  if options.Hostname = "" then
    match env.osHostname w with
    | (res, w1) =>
      let Hostname : String := match res with
        | .ok h => h
        | .err _ => ""
      if matchHostname Hostname = true then
        let hostname := Hostname ++ "." ++ options.Zone
        ⟨[.osHostname res, .printf ("get hostname " ++ hostname)], w1, .ok hostname⟩
      else
        ⟨[.osHostname res], w1, .ok options.Hostname⟩
  else
    ⟨[], w, .ok options.Hostname⟩

/-- Lines 92-94 of main.go: `update.Init`. -/
def initEngine {σ : Type} (env : Env σ) (u : Update) (options : Options)
    (name hostname : String) (w : σ) : Res σ Unit :=
  match env.init u name options.Zone options.Server hostname w with
  | (some e, w1) =>
    ⟨[.init u name options.Zone options.Server hostname (some e), .fatalf ("init: " ++ e)],
      w1, .exit 1⟩
  | (none, w1) =>
    ⟨[.init u name options.Zone options.Server hostname none], w1, .ok ()⟩

/-- Lines 96-109 of main.go: the TSIG key.  An empty secret is replaced by
the constant `TSIG`; an empty key name is replaced by the DNS name. -/
def setupTSIG {σ : Type} (env : Env σ) (options : Options) (argsName : String) (w : σ) :
    Res σ Unit :=
  let secret := if options.TSIGSecret = "" then TSIG else options.TSIGSecret
  if secret ≠ "" then
    let name := if options.TSIGName = "" then argsName else options.TSIGName
    ⟨[.printf ("using TSIG: " ++ name ++ " (algo=" ++ options.TSIGAlgorithm ++ ")"),
      .initTSIG name secret options.TSIGAlgorithm],
      env.initTSIG name secret options.TSIGAlgorithm w, .ok ()⟩
  else
    ⟨[], w, .ok ()⟩

/-- Lines 111-115 of main.go: the first address scan. -/
def scanAddrs {σ : Type} (env : Env σ) (options : Options) (w : σ) : Res σ Unit :=
  match env.interfaceAddrs options.Interface options.InterfaceFamily w with
  | (some e, w1) =>
    ⟨[.interfaceAddrs options.Interface options.InterfaceFamily (some e),
      .fatalf ("addrs scan: " ++ e)], w1, .exit 1⟩
  | (none, w1) =>
    ⟨[.interfaceAddrs options.Interface options.InterfaceFamily none], w1, .ok ()⟩

/-- Line 118 of main.go: `update.Start()`. -/
def startEngine {σ : Type} (env : Env σ) (w : σ) : Res σ Unit :=
  ⟨[.start], env.start w, .ok ()⟩

/-- Lines 120-138 of main.go: the `for` loop.  Each iteration costs one unit
of fuel; with no fuel left the loop is still running.  Falling through is the
`break`. -/
def updateLoop {σ : Type} (env : Env σ) (watch : Bool) : Nat → σ → Res σ Unit
  | 0, w => ⟨[], w, .running⟩
  | fuel + 1, w =>
    match env.update w with
    | (some e, w1) =>
      ⟨[.printf "update...", .update (some e), .fatalf ("update: " ++ e)], w1, .exit 1⟩
    | (none, w1) =>
      if !watch then
        ⟨[.printf "update...", .update none, .printf "wait..."], w1, .ok ()⟩
      else
        match env.read w1 with
        | (some e, w2) =>
          ⟨[.printf "update...", .update none, .printf "wait...", .read (some e),
            .fatalf ("addrs read: " ++ e)], w2, .exit 1⟩
        | (none, w2) =>
          let r := updateLoop env watch fuel w2
          ⟨[.printf "update...", .update none, .printf "wait...", .read none,
            .printf "addrs update..."] ++ r.trace, r.world, r.out⟩

/-- Lines 139-143 of main.go: `update.Done()`; its error is only logged. -/
def finish {σ : Type} (env : Env σ) (w : σ) : Res σ Unit :=
  match env.done w with
  | (some e, w1) => ⟨[.done (some e), .printf ("update done: " ++ e)], w1, .ok ()⟩
  | (none, w1) => ⟨[.done none, .printf "update done"], w1, .ok ()⟩

/-- Lines 55-115 of main.go: everything before `update.Start()`. -/
def setup {σ : Type} (env : Env σ) (options : Options) (w : σ) : Res σ Unit :=
  (resolveName env options w).andThen fun name w1 =>
  (resolveHostname env options w1).andThen fun hostname w2 =>
  (initEngine env (mkUpdate options) options name hostname w2).andThen fun _ w3 =>
  (setupTSIG env options name w3).andThen fun _ w4 =>
  scanAddrs env options w4

/-- Lines 120-143 of main.go: the loop, then `update.Done()` once the loop is
left by its `break`. -/
def loopAndDone {σ : Type} (env : Env σ) (watch : Bool) (fuel : Nat) (w : σ) : Res σ Unit :=
  (updateLoop env watch fuel w).andThen fun _ w7 => finish env w7

/-- The function `main` (main.go lines 47-145).  `parsed` is the result of
`flags.Parse`, `fuel` bounds the number of loop iterations that are followed,
`w` is the world at startup. -/
def main {σ : Type} (env : Env σ) (parsed : Result Options) (fuel : Nat) (w : σ) :
    Res σ Unit :=
  match parsed with
  | .err e => ⟨[.fatalf ("flags.Parse: " ++ e)], w, .exit 1⟩
  | .ok options =>
    (setup env options w).andThen fun _ w5 =>
    (startEngine env w5).andThen fun _ w6 =>
    loopAndDone env options.Watch fuel w6

/-- The exit status of a run: `main` returning is status 0; `none` while the
program is still running. -/
def exitStatus {σ : Type} (r : Res σ Unit) : Option Nat :=
  match r.out with
  | .ok _ => some 0
  | .exit c => some c
  | .running => none

/-! ## A scripted environment, for concrete runs -/

/-- The outcomes an environment is scripted with: what the file read, the
decoder and the hostname query return, the errors of `Init`, the scan and
`Done`, and the errors of the `Update` and `Read` calls of each round. -/
structure Script where
  file : Result (List UInt8)
  node : Result Node
  host : Result String
  initErr : Option String
  scanErr : Option String
  updateErr : Nat → Option String
  readErr : Nat → Option String
  doneErr : Option String

/-- The environment that follows a script.  Its world is the number of
completed `Read` calls, that is, the round the loop is in. -/
def Script.env (s : Script) : Env Nat where
  readFile := fun _ w => (s.file, w)
  unmarshal := fun _ => s.node
  osHostname := fun w => (s.host, w)
  init := fun _ _ _ _ _ w => (s.initErr, w)
  initTSIG := fun _ _ _ w => w
  interfaceAddrs := fun _ _ w => (s.scanErr, w)
  start := fun w => w
  update := fun w => (s.updateErr w, w)
  read := fun w => (s.readErr w, w + 1)
  done := fun w => (s.doneErr, w)

/-- The bytes of the node record `{"bcode":"n1","email":"a@b"}`. -/
def quietRecord : List UInt8 :=
  [123, 34, 98, 99, 111, 100, 101, 34, 58, 34, 110, 49, 34, 44, 34, 101, 109, 97, 105, 108,
    34, 58, 34, 97, 64, 98, 34, 125]

/-- The script in which every call succeeds: the node record file holds
`quietRecord`, which decodes to `bcode = n1`, `email = a@b`, and the OS
hostname is `edge-7`. -/
def quietScript : Script where
  file := .ok quietRecord
  node := .ok ⟨"n1", "a@b"⟩
  host := .ok "edge-7"
  initErr := none
  scanErr := none
  updateErr := fun _ => none
  readErr := fun _ => none
  doneErr := none

/-- The option values of a run without arguments (main.go lines 14-30): no
positional name, no hostname, no server and no TSIG secret.  The field
`TSIGAlgorithm` carries two `default` tags, of which the later one,
`hmac-sha1.`, is the value left in the field. -/
def defaultOptions : Options where
  Verbose := false
  Watch := false
  Interface := "tun0"
  InterfaceFamily := .ipv6
  Server := ""
  Timeout := 10000000000
  Retry := 30000000000
  TSIGName := "nodes.bonuscloud.work"
  TSIGSecret := ""
  TSIGAlgorithm := "hmac-sha1."
  Zone := "nodes.bonuscloud.work."
  TTL := 60000000000
  Hostname := ""
  Name := ""

/-- The script whose `Done` call fails. -/
def failingDoneScript : Script := { quietScript with doneErr := some "timeout" }

/-- The default options with `--watch`. -/
def watchOptions : Options := { defaultOptions with Watch := true }

/-- The script whose node record file cannot be read. -/
def missingFileScript : Script := { quietScript with file := .err "no such file" }

/-- The script whose `Init` call fails. -/
def failingInitScript : Script := { quietScript with initErr := some "bad zone" }

/-- The script whose `Update` calls fail. -/
def failingUpdateScript : Script := { quietScript with updateErr := fun _ => some "refused" }

/-- The script whose second `Read` call fails. -/
def failingReadScript : Script :=
  { quietScript with readErr := fun n => if n = 1 then some "netlink closed" else none }

/-- The default options with a TTL of 999999999 nanoseconds. -/
def subSecondOptions : Options := { defaultOptions with TTL := 999999999 }

/-! ## Observations on traces -/

/-- The event is a read of a file. -/
def Event.isReadFile : Event → Bool
  | .readFile _ _ => true
  | _ => false

/-- The event is a query of the OS hostname. -/
def Event.isOsHostname : Event → Bool
  | .osHostname _ => true
  | _ => false

/-- The event is a call of `update.Init`. -/
def Event.isInit : Event → Bool
  | .init _ _ _ _ _ _ => true
  | _ => false

/-- The event is a call of `update.InitTSIG`. -/
def Event.isInitTSIG : Event → Bool
  | .initTSIG _ _ _ => true
  | _ => false

/-- The event is a call of `InterfaceAddrs`, the address scan. -/
def Event.isScan : Event → Bool
  | .interfaceAddrs _ _ _ => true
  | _ => false

/-- The event is a call of `update.Start`. -/
def Event.isStart : Event → Bool
  | .start => true
  | _ => false

/-- The event is a call of `update.Update`. -/
def Event.isUpdate : Event → Bool
  | .update _ => true
  | _ => false

/-- The event is a call of `addrs.Read`. -/
def Event.isRead : Event → Bool
  | .read _ => true
  | _ => false

/-- The event is a call of `update.Done`. -/
def Event.isDone : Event → Bool
  | .done _ => true
  | _ => false

/-- The calls `main` makes from `update.Start()` on: the engine and the
address-source calls of lines 118-143. -/
def Event.isEngineCall : Event → Bool
  | .start => true
  | .update _ => true
  | .read _ => true
  | .done _ => true
  | _ => false

/-- The calls made from `update.Start()` on, in order, log lines left out. -/
def engineCalls (tr : List Event) : List Event := tr.filter Event.isEngineCall

/-- The event is a log line. -/
def Event.isLog : Event → Bool
  | .printf _ => true
  | .fatalf _ => true
  | _ => false

/-- The event is one of the setup (lines 55-115): a file read, a hostname
query, `Init`, `InitTSIG`, the address scan, or a log line. -/
def Event.isSetupEvent : Event → Bool
  | .readFile _ _ => true
  | .osHostname _ => true
  | .init _ _ _ _ _ _ => true
  | .initTSIG _ _ _ => true
  | .interfaceAddrs _ _ _ => true
  | .printf _ => true
  | .fatalf _ => true
  | _ => false

/-- The event comes after the `Init` call: `InitTSIG`, the address scan, an
engine call or a log line. -/
def Event.isPostInit : Event → Bool
  | .initTSIG _ _ _ => true
  | .interfaceAddrs _ _ _ => true
  | .start => true
  | .update _ => true
  | .read _ => true
  | .done _ => true
  | .printf _ => true
  | .fatalf _ => true
  | _ => false

/-! ## The shapes of runs

The predicates below describe which events a phase of `main` can produce.
They are used in the proofs only. -/

/-- The three ways the node record fails to give a name. -/
def NameFailure {σ : Type} (env : Env σ) (res : Result (List UInt8)) : Prop :=
  (∃ e, res = .err e) ∨ res = .ok [] ∨ ∃ j e, res = .ok j ∧ env.unmarshal j = .err e

/-- The events `N` of a successful name resolution, and the name it yields. -/
def NameShape {σ : Type} (env : Env σ) (o : Options) (w : σ) (N : List Event) (name : String) :
    Prop :=
  (o.Name ≠ "" ∧ name = o.Name ∧ N = [.printf ("get name " ++ o.Name)]) ∨
  (o.Name = "" ∧ ∃ j node, (env.readFile SerializeFile w).1 = .ok j ∧ j ≠ [] ∧
    env.unmarshal j = .ok node ∧ name = node.Bcode ++ "." ++ o.Zone ∧
    N = [.readFile SerializeFile (.ok j), .printf ("get name " ++ name)])

/-- The events `H` of the hostname resolution, and the hostname it yields. -/
def HostShape (o : Options) (H : List Event) (hostname : String) : Prop :=
  (o.Hostname ≠ "" ∧ hostname = o.Hostname ∧ H = []) ∨
  (o.Hostname = "" ∧ ∃ h, matchHostname h = true ∧ hostname = h ++ "." ++ o.Zone ∧
    H = [.osHostname (.ok h), .printf ("get hostname " ++ hostname)]) ∨
  (o.Hostname = "" ∧ ∃ h, matchHostname h = false ∧ hostname = "" ∧ H = [.osHostname (.ok h)]) ∨
  (o.Hostname = "" ∧ ∃ e, hostname = "" ∧ H = [.osHostname (.err e)])

/-- The events of the TSIG step, for the DNS name `name`. -/
def tsigEvents (o : Options) (name : String) : List Event :=
  [.printf ("using TSIG: " ++ (if o.TSIGName = "" then name else o.TSIGName) ++ " (algo=" ++
      o.TSIGAlgorithm ++ ")"),
    .initTSIG (if o.TSIGName = "" then name else o.TSIGName)
      (if o.TSIGSecret = "" then TSIG else o.TSIGSecret) o.TSIGAlgorithm]

/-- The call sequences of the loop followed by the teardown, with the outcome
of each: out of fuel, a failed `Update`, one `Update` and `Done` without
watching, a failed `Read`, or one more round of `Update` and `Read`. -/
inductive Calls (watch : Bool) : List Event → Outcome Unit → Prop where
  | fuel : Calls watch [] .running
  | updateFails (e : String) : Calls watch [.update (some e)] (.exit 1)
  | once (d : Option String) : watch = false → Calls watch [.update none, .done d] (.ok ())
  | readFails (e : String) : watch = true → Calls watch [.update none, .read (some e)] (.exit 1)
  | again {l : List Event} {out : Outcome Unit} : watch = true → Calls watch l out →
      Calls watch (.update none :: .read none :: l) out

theorem Event.isLog_class {x : Event} (h : x.isLog = true) :
    x.isInit = false ∧ x.isReadFile = false ∧ x.isOsHostname = false ∧ x.isInitTSIG = false ∧
      x.isScan = false ∧ x.isStart = false ∧ x.isUpdate = false ∧ x.isRead = false ∧
      x.isDone = false ∧ x.isEngineCall = false ∧ x.isSetupEvent = true ∧
      x.isPostInit = true := by
  cases x <;> simp_all [Event.isLog, Event.isInit, Event.isReadFile, Event.isOsHostname,
    Event.isInitTSIG, Event.isScan, Event.isEngineCall, Event.isSetupEvent, Event.isPostInit,
    Event.isStart, Event.isUpdate, Event.isRead, Event.isDone]

theorem Event.isReadFile_class {x : Event} (h : x.isReadFile = true) :
    x.isInit = false ∧ x.isLog = false ∧ x.isOsHostname = false ∧ x.isInitTSIG = false ∧
      x.isScan = false ∧ x.isStart = false ∧ x.isUpdate = false ∧ x.isRead = false ∧
      x.isDone = false ∧ x.isEngineCall = false ∧ x.isSetupEvent = true := by
  cases x <;> simp_all [Event.isLog, Event.isInit, Event.isReadFile, Event.isOsHostname,
    Event.isInitTSIG, Event.isScan, Event.isEngineCall, Event.isSetupEvent,
    Event.isStart, Event.isUpdate, Event.isRead, Event.isDone]

theorem Event.isOsHostname_class {x : Event} (h : x.isOsHostname = true) :
    x.isInit = false ∧ x.isLog = false ∧ x.isReadFile = false ∧ x.isInitTSIG = false ∧
      x.isScan = false ∧ x.isStart = false ∧ x.isUpdate = false ∧ x.isRead = false ∧
      x.isDone = false ∧ x.isEngineCall = false ∧ x.isSetupEvent = true := by
  cases x <;> simp_all [Event.isLog, Event.isInit, Event.isReadFile, Event.isOsHostname,
    Event.isInitTSIG, Event.isScan, Event.isEngineCall, Event.isSetupEvent,
    Event.isStart, Event.isUpdate, Event.isRead, Event.isDone]

theorem Event.isEngineCall_split (x : Event) :
    x.isEngineCall = (x.isStart || x.isUpdate || x.isRead || x.isDone) := by
  cases x <;> rfl

theorem Event.not_engine_class {x : Event} (h : x.isEngineCall = false) :
    x.isStart = false ∧ x.isUpdate = false ∧ x.isRead = false ∧ x.isDone = false := by
  cases x <;> simp_all [Event.isEngineCall, Event.isStart, Event.isUpdate, Event.isRead,
    Event.isDone]

theorem Event.isSetupEvent_class {x : Event} (h : x.isSetupEvent = true) :
    x.isEngineCall = false := by
  cases x <;> simp_all [Event.isEngineCall, Event.isSetupEvent]

@[simp] theorem Res.prepend_trace {σ α : Type} (tr : List Event) (r : Res σ α) :
    (r.prepend tr).trace = tr ++ r.trace := rfl

@[simp] theorem Res.prepend_out {σ α : Type} (tr : List Event) (r : Res σ α) :
    (r.prepend tr).out = r.out := rfl

@[simp] theorem Res.prepend_world {σ α : Type} (tr : List Event) (r : Res σ α) :
    (r.prepend tr).world = r.world := rfl

@[simp] theorem Res.andThen_mk_ok {σ α β : Type} (tr : List Event) (w : σ) (a : α)
    (f : α → σ → Res σ β) :
    (Res.mk tr w (.ok a)).andThen f = (f a w).prepend tr := rfl

@[simp] theorem Res.andThen_mk_exit {σ α β : Type} (tr : List Event) (w : σ) (c : Nat)
    (f : α → σ → Res σ β) :
    (Res.mk tr w (Outcome.exit c : Outcome α)).andThen f = ⟨tr, w, .exit c⟩ := rfl

@[simp] theorem Res.andThen_mk_running {σ α β : Type} (tr : List Event) (w : σ)
    (f : α → σ → Res σ β) :
    (Res.mk tr w (Outcome.running : Outcome α)).andThen f = ⟨tr, w, .running⟩ := rfl

/-! ## The shape of the setup phases -/

theorem resolveName_shape {σ : Type} (env : Env σ) (o : Options) (w : σ) :
    (o.Name = "" ∧ ∃ res w1, env.readFile SerializeFile w = (res, w1) ∧ NameFailure env res ∧
      resolveName env o w =
        ⟨[.readFile SerializeFile res, .fatalf "fail to get name"], w1, .exit 1⟩) ∨
    (∃ N name w1, NameShape env o w N name ∧ resolveName env o w = ⟨N, w1, .ok name⟩) := by
  unfold resolveName
  by_cases hn : o.Name = ""
  · simp only [hn, if_true]
    rcases hrf : env.readFile SerializeFile w with ⟨res, w1⟩
    cases res with
    | err e =>
      left
      exact ⟨trivial, _, _, rfl, Or.inl ⟨e, rfl⟩, rfl⟩
    | ok j =>
      by_cases hj : j = []
      · left
        subst hj
        exact ⟨trivial, _, _, rfl, Or.inr (Or.inl rfl), rfl⟩
      · have hlen : ¬ j.length = 0 := by simpa [List.length_eq_zero] using hj
        simp only [hlen, if_false]
        cases hu : env.unmarshal j with
        | err e =>
          left
          exact ⟨trivial, _, _, rfl, Or.inr (Or.inr ⟨j, e, rfl, hu⟩), rfl⟩
        | ok node =>
          right
          refine ⟨_, _, w1, Or.inr ⟨hn, j, node, ?_, hj, hu, rfl, rfl⟩, rfl⟩
          rw [hrf]
  · right
    simp only [hn, if_false]
    exact ⟨_, _, w, Or.inl ⟨hn, rfl, rfl⟩, rfl⟩

theorem matchHostname_empty : matchHostname "" = false := by decide

theorem resolveHostname_shape {σ : Type} (env : Env σ) (o : Options) (w : σ) :
    ∃ H hostname w1, HostShape o H hostname ∧ resolveHostname env o w = ⟨H, w1, .ok hostname⟩ := by
  unfold resolveHostname
  generalize env.osHostname w = p
  by_cases hn : o.Hostname = ""
  · simp only [hn, if_true]
    rcases p with ⟨res, w1⟩
    cases res with
    | ok h =>
      by_cases hm : matchHostname h = true
      · dsimp only
        simp only [hm, if_true]
        exact ⟨_, _, w1, Or.inr (Or.inl ⟨hn, h, hm, rfl, rfl⟩), rfl⟩
      · dsimp only
        simp only [hm, if_false]
        refine ⟨_, _, w1, Or.inr (Or.inr (Or.inl ⟨hn, h, ?_, rfl, rfl⟩)), rfl⟩
        simpa using hm
    | err e =>
      dsimp only
      simp only [matchHostname_empty, Bool.false_eq_true, if_false]
      exact ⟨_, _, w1, Or.inr (Or.inr (Or.inr ⟨hn, e, rfl, rfl⟩)), rfl⟩
  · simp only [hn, if_false]
    exact ⟨_, _, w, Or.inl ⟨hn, rfl, rfl⟩, rfl⟩

theorem TSIG_ne_empty : TSIG ≠ "" := by decide

theorem setupTSIG_shape {σ : Type} (env : Env σ) (o : Options) (name : String) (w : σ) :
    ∃ w1, setupTSIG env o name w = ⟨tsigEvents o name, w1, .ok ()⟩ := by
  unfold setupTSIG tsigEvents
  by_cases hs : o.TSIGSecret = ""
  · simp only [hs, if_true, TSIG_ne_empty, ne_eq, not_false_eq_true]
    exact ⟨_, rfl⟩
  · simp only [hs, if_false, ne_eq, not_false_eq_true, if_true]
    exact ⟨_, rfl⟩

theorem initEngine_shape {σ : Type} (env : Env σ) (u : Update) (o : Options)
    (name hostname : String) (w : σ) :
    (∃ e w1, initEngine env u o name hostname w =
      ⟨[.init u name o.Zone o.Server hostname (some e), .fatalf ("init: " ++ e)], w1, .exit 1⟩) ∨
    (∃ w1, initEngine env u o name hostname w =
      ⟨[.init u name o.Zone o.Server hostname none], w1, .ok ()⟩) := by
  unfold initEngine
  split
  · exact Or.inl ⟨_, _, rfl⟩
  · exact Or.inr ⟨_, rfl⟩

theorem scanAddrs_shape {σ : Type} (env : Env σ) (o : Options) (w : σ) :
    (∃ e w1, scanAddrs env o w =
      ⟨[.interfaceAddrs o.Interface o.InterfaceFamily (some e), .fatalf ("addrs scan: " ++ e)],
        w1, .exit 1⟩) ∨
    (∃ w1, scanAddrs env o w =
      ⟨[.interfaceAddrs o.Interface o.InterfaceFamily none], w1, .ok ()⟩) := by
  unfold scanAddrs
  split
  · exact Or.inl ⟨_, _, rfl⟩
  · exact Or.inr ⟨_, rfl⟩

/-- The four ways `setup` can end, with the events of each. -/
theorem setup_shape {σ : Type} (env : Env σ) (o : Options) (w : σ) :
    (o.Name = "" ∧ ∃ res w1, env.readFile SerializeFile w = (res, w1) ∧ NameFailure env res ∧
      (setup env o w).trace = [.readFile SerializeFile res, .fatalf "fail to get name"] ∧
      (setup env o w).out = .exit 1) ∨
    (∃ N name H hostname, NameShape env o w N name ∧ HostShape o H hostname ∧
      ((∃ e, (setup env o w).trace = N ++ H ++
            [.init (mkUpdate o) name o.Zone o.Server hostname (some e),
              .fatalf ("init: " ++ e)] ∧
          (setup env o w).out = .exit 1) ∨
        (∃ e, (setup env o w).trace = N ++ H ++
            [.init (mkUpdate o) name o.Zone o.Server hostname none] ++ tsigEvents o name ++
            [.interfaceAddrs o.Interface o.InterfaceFamily (some e),
              .fatalf ("addrs scan: " ++ e)] ∧
          (setup env o w).out = .exit 1) ∨
        ((setup env o w).trace = N ++ H ++
            [.init (mkUpdate o) name o.Zone o.Server hostname none] ++ tsigEvents o name ++
            [.interfaceAddrs o.Interface o.InterfaceFamily none] ∧
          (setup env o w).out = .ok ()))) := by
  unfold setup
  rcases resolveName_shape env o w with ⟨hn, res, w1, hrf, hfail, heq⟩ | ⟨N, name, w1, hN, heq⟩
  · left
    rw [heq]
    exact ⟨hn, res, w1, hrf, hfail, rfl, rfl⟩
  · right
    rw [heq]
    obtain ⟨H, hostname, w2, hH, heqH⟩ := resolveHostname_shape env o w1
    refine ⟨N, name, H, hostname, hN, hH, ?_⟩
    simp only [Res.andThen_mk_ok, heqH]
    rcases initEngine_shape env (mkUpdate o) o name hostname w2 with ⟨e, w3, hI⟩ | ⟨w3, hI⟩
    · left
      rw [hI]
      exact ⟨e, by simp, rfl⟩
    · right
      rw [hI]
      obtain ⟨w4, hT⟩ := setupTSIG_shape env o name w3
      simp only [Res.andThen_mk_ok, hT]
      rcases scanAddrs_shape env o w4 with ⟨e, w5, hS⟩ | ⟨w5, hS⟩
      · left
        rw [hS]
        exact ⟨e, by simp, rfl⟩
      · right
        rw [hS]
        exact ⟨by simp, rfl⟩

/-! ## The shape of the loop and of the teardown -/

theorem finish_shape {σ : Type} (env : Env σ) (w : σ) :
    ∃ d msg w1, finish env w = ⟨[.done d, .printf msg], w1, .ok ()⟩ := by
  unfold finish
  split
  · exact ⟨_, _, _, rfl⟩
  · exact ⟨_, _, _, rfl⟩

theorem Res.andThen_prepend {σ α β : Type} (tr : List Event) (r : Res σ α)
    (f : α → σ → Res σ β) :
    (Res.mk (tr ++ r.trace) r.world r.out).andThen f = (r.andThen f).prepend tr := by
  rcases r with ⟨t, w, out⟩
  cases out <;> simp [Res.andThen, Res.prepend]

/-- One iteration of the loop, with the teardown behind it. -/
theorem loopAndDone_succ {σ : Type} (env : Env σ) (watch : Bool) (n : Nat) (w : σ) :
    loopAndDone env watch (n + 1) w =
      match env.update w with
      | (some e, w1) =>
        ⟨[.printf "update...", .update (some e), .fatalf ("update: " ++ e)], w1, .exit 1⟩
      | (none, w1) =>
        if watch = false then
          (finish env w1).prepend [.printf "update...", .update none, .printf "wait..."]
        else
          match env.read w1 with
          | (some e, w2) =>
            ⟨[.printf "update...", .update none, .printf "wait...", .read (some e),
              .fatalf ("addrs read: " ++ e)], w2, .exit 1⟩
          | (none, w2) =>
            (loopAndDone env watch n w2).prepend
              [.printf "update...", .update none, .printf "wait...", .read none,
                .printf "addrs update..."] := by
  unfold loopAndDone
  rw [updateLoop]
  rcases hu : env.update w with ⟨ue, w1⟩
  cases ue with
  | some e => simp
  | none =>
    cases watch with
    | false => simp
    | true =>
      simp only [Bool.not_true, Bool.false_eq_true, if_false]
      rcases hr : env.read w1 with ⟨re, w2⟩
      cases re with
      | some e => simp
      | none => exact Res.andThen_prepend _ (updateLoop env true n w2) _

/-- Every event of the loop and the teardown is an engine call other than
`Start` or a log line, and the engine calls form one of the sequences of
`Calls`. -/
theorem loopAndDone_shape {σ : Type} (env : Env σ) (watch : Bool) (fuel : Nat) :
    ∀ w : σ, (∀ x ∈ (loopAndDone env watch fuel w).trace,
        x.isEngineCall = true ∨ x.isLog = true) ∧
      Calls watch (engineCalls (loopAndDone env watch fuel w).trace)
        (loopAndDone env watch fuel w).out := by
  induction fuel with
  | zero =>
    intro w
    simp [loopAndDone, updateLoop, engineCalls]
    exact Calls.fuel
  | succ n ih =>
    intro w
    rw [loopAndDone_succ]
    rcases env.update w with ⟨ue, w1⟩
    cases ue with
    | some e =>
      simp [engineCalls, Event.isEngineCall, Event.isLog]
      exact Calls.updateFails e
    | none =>
      cases watch with
      | false =>
        obtain ⟨d, msg, w2, hf⟩ := finish_shape env w1
        simp [hf, engineCalls, Event.isEngineCall, Event.isLog]
        exact Calls.once d rfl
      | true =>
        simp only [Bool.true_eq_false, if_false]
        rcases env.read w1 with ⟨re, w2⟩
        cases re with
        | some e =>
          simp [engineCalls, Event.isEngineCall, Event.isLog]
          exact Calls.readFails e rfl
        | none =>
          obtain ⟨h1, h2⟩ := ih w2
          constructor
          · intro x hx
            simp at hx
            rcases hx with h | h | h | h | h | h
            any_goals (subst h; simp [Event.isEngineCall, Event.isLog])
            exact h1 x h
          · have : engineCalls ((loopAndDone env true n w2).prepend
                [.printf "update...", .update none, .printf "wait...", .read none,
                  .printf "addrs update..."]).trace =
                .update none :: .read none :: engineCalls (loopAndDone env true n w2).trace := by
              simp [engineCalls, Event.isEngineCall]
            simp only [this, Res.prepend_out]
            exact Calls.again rfl h2

/-! ## The shape of a whole run -/

theorem NameShape.name_events {σ : Type} {env : Env σ} {o : Options} {w : σ} {N : List Event}
    {name : String} (h : NameShape env o w N name) :
    ∀ x ∈ N, x.isReadFile = true ∨ x.isLog = true := by
  rcases h with ⟨_, _, rfl⟩ | ⟨_, j, node, _, _, _, _, rfl⟩
  · intro x hx
    rw [List.mem_singleton] at hx
    subst hx
    exact Or.inr rfl
  · intro x hx
    rw [List.mem_cons, List.mem_singleton] at hx
    rcases hx with h | h <;> subst h
    · exact Or.inl rfl
    · exact Or.inr rfl

theorem HostShape.host_events {o : Options} {H : List Event} {hostname : String}
    (h : HostShape o H hostname) :
    ∀ x ∈ H, x.isOsHostname = true ∨ x.isLog = true := by
  rcases h with ⟨_, _, rfl⟩ | ⟨_, h, _, _, rfl⟩ | ⟨_, h, _, _, rfl⟩ | ⟨_, e, _, rfl⟩
  · intro x hx
    cases hx
  · intro x hx
    rw [List.mem_cons, List.mem_singleton] at hx
    rcases hx with h | h <;> subst h
    · exact Or.inl rfl
    · exact Or.inr rfl
  · intro x hx
    rw [List.mem_singleton] at hx
    subst hx
    exact Or.inl rfl
  · intro x hx
    rw [List.mem_singleton] at hx
    subst hx
    exact Or.inl rfl

/-- The setup either ends the process with status 1 or falls through; it never
runs out of fuel. -/
theorem setup_out {σ : Type} (env : Env σ) (o : Options) (w : σ) :
    (setup env o w).out = .exit 1 ∨ (setup env o w).out = .ok () := by
  rcases setup_shape env o w with ⟨_, _, _, _, _, _, h⟩ | ⟨_, _, _, _, _, _, h⟩
  · exact Or.inl h
  · rcases h with ⟨_, _, h⟩ | ⟨_, _, h⟩ | ⟨_, h⟩
    · exact Or.inl h
    · exact Or.inl h
    · exact Or.inr h

/-- Every event of the setup is a setup event. -/
theorem setup_events {σ : Type} (env : Env σ) (o : Options) (w : σ) :
    ∀ x ∈ (setup env o w).trace, x.isSetupEvent = true := by
  rw [← List.all_eq_true]
  rcases setup_shape env o w with ⟨_, res, w1, _, _, htr, _⟩ | ⟨N, name, H, hostname, hN, hH, h⟩
  · rw [htr]
    rfl
  · have hNx : N.all Event.isSetupEvent = true := by
      rw [List.all_eq_true]
      intro x hm
      rcases hN.name_events x hm with hl | hl
      · simp [Event.isReadFile_class hl]
      · simp [Event.isLog_class hl]
    have hHx : H.all Event.isSetupEvent = true := by
      rw [List.all_eq_true]
      intro x hm
      rcases hH.host_events x hm with hl | hl
      · simp [Event.isOsHostname_class hl]
      · simp [Event.isLog_class hl]
    rcases h with ⟨e, htr, _⟩ | ⟨e, htr, _⟩ | ⟨htr, _⟩
    all_goals
      rw [htr]
      simp only [List.all_append, hNx, hHx, tsigEvents, Bool.and_true, Bool.true_and]
      rfl

/-- A run with parsed options is the setup, and after a successful setup
`update.Start()`, the loop and the teardown. -/
theorem main_shape {σ : Type} (env : Env σ) (o : Options) (fuel : Nat) (w : σ) :
    ((setup env o w).out = .exit 1 ∧
      (main env (.ok o) fuel w).trace = (setup env o w).trace ∧
      (main env (.ok o) fuel w).out = .exit 1) ∨
    ((setup env o w).out = .ok () ∧
      (main env (.ok o) fuel w).trace = (setup env o w).trace ++
        .start :: (loopAndDone env o.Watch fuel (env.start (setup env o w).world)).trace ∧
      (main env (.ok o) fuel w).out =
        (loopAndDone env o.Watch fuel (env.start (setup env o w).world)).out) := by
  unfold main
  dsimp only
  rcases setup_out env o w with h | h
  · left
    generalize setup env o w = s at h ⊢
    rcases s with ⟨t, w1, out⟩
    simp only at h
    subst h
    simp
  · right
    generalize setup env o w = s at h ⊢
    rcases s with ⟨t, w1, out⟩
    simp only at h
    subst h
    simp [startEngine]

theorem engineCalls_append (a b : List Event) :
    engineCalls (a ++ b) = engineCalls a ++ engineCalls b := by
  simp [engineCalls]

theorem engineCalls_setup {σ : Type} (env : Env σ) (o : Options) (w : σ) :
    engineCalls (setup env o w).trace = [] := by
  unfold engineCalls
  rw [List.filter_eq_nil_iff]
  intro x hx
  rw [Event.isSetupEvent_class (setup_events env o w x hx)]
  simp

/-- The engine calls of a run: none when the setup fails, otherwise `Start`
followed by one of the sequences of `Calls`. -/
theorem main_calls {σ : Type} (env : Env σ) (o : Options) (fuel : Nat) (w : σ) :
    ((setup env o w).out = .exit 1 ∧ engineCalls (main env (.ok o) fuel w).trace = [] ∧
      (main env (.ok o) fuel w).out = .exit 1) ∨
    ((setup env o w).out = .ok () ∧ ∃ l, engineCalls (main env (.ok o) fuel w).trace = .start :: l ∧
      Calls o.Watch l (main env (.ok o) fuel w).out) := by
  rcases main_shape env o fuel w with ⟨h1, h2, h3⟩ | ⟨h1, h2, h3⟩
  · left
    refine ⟨h1, ?_, h3⟩
    rw [h2, engineCalls_setup]
  · right
    refine ⟨h1, engineCalls (loopAndDone env o.Watch fuel (env.start (setup env o w).world)).trace,
      ?_, ?_⟩
    · rw [h2, engineCalls_append, engineCalls_setup]
      simp [engineCalls, Event.isEngineCall]
    · rw [h3]
      exact (loopAndDone_shape env o.Watch fuel _).2

/-- The four ways a run with parsed options can go: no name, a failed
`Init`, a failed address scan, or a complete setup followed by
`update.Start()`, the loop and the teardown. -/
theorem main_full_shape {σ : Type} (env : Env σ) (o : Options) (fuel : Nat) (w : σ) :
    (o.Name = "" ∧ NameFailure env (env.readFile SerializeFile w).1 ∧
      (main env (.ok o) fuel w).trace =
        [.readFile SerializeFile (env.readFile SerializeFile w).1, .fatalf "fail to get name"] ∧
      (main env (.ok o) fuel w).out = .exit 1) ∨
    (∃ N name H hostname, NameShape env o w N name ∧ HostShape o H hostname ∧
      ((∃ e, (main env (.ok o) fuel w).trace = N ++ H ++
            [.init (mkUpdate o) name o.Zone o.Server hostname (some e),
              .fatalf ("init: " ++ e)] ∧
          (main env (.ok o) fuel w).out = .exit 1) ∨
        (∃ e, (main env (.ok o) fuel w).trace = N ++ H ++
            (.init (mkUpdate o) name o.Zone o.Server hostname none :: tsigEvents o name ++
            [.interfaceAddrs o.Interface o.InterfaceFamily (some e),
              .fatalf ("addrs scan: " ++ e)]) ∧
          (main env (.ok o) fuel w).out = .exit 1) ∨
        (∃ T, (main env (.ok o) fuel w).trace = N ++ H ++
            (.init (mkUpdate o) name o.Zone o.Server hostname none :: tsigEvents o name ++
            .interfaceAddrs o.Interface o.InterfaceFamily none :: .start :: T) ∧
          (∀ x ∈ T, x.isEngineCall = true ∨ x.isLog = true) ∧
          (setup env o w).out = .ok () ∧
          T = (loopAndDone env o.Watch fuel (env.start (setup env o w).world)).trace ∧
          (main env (.ok o) fuel w).out =
            (loopAndDone env o.Watch fuel (env.start (setup env o w).world)).out))) := by
  rcases setup_shape env o w with ⟨hn, res, w1, hrf, hfail, htr, hout⟩ |
    ⟨N, name, H, hostname, hN, hH, h⟩
  · left
    rcases main_shape env o fuel w with ⟨_, h2, h3⟩ | ⟨h1, _, _⟩
    · rw [hrf]
      exact ⟨hn, hfail, by rw [h2, htr], h3⟩
    · rw [hout] at h1
      cases h1
  · right
    refine ⟨N, name, H, hostname, hN, hH, ?_⟩
    rcases h with ⟨e, htr, hout⟩ | ⟨e, htr, hout⟩ | ⟨htr, hout⟩
    · rcases main_shape env o fuel w with ⟨_, h2, h3⟩ | ⟨h1, _, _⟩
      · exact Or.inl ⟨e, by rw [h2, htr], h3⟩
      · rw [hout] at h1
        cases h1
    · rcases main_shape env o fuel w with ⟨_, h2, h3⟩ | ⟨h1, _, _⟩
      · refine Or.inr (Or.inl ⟨e, ?_, h3⟩)
        rw [h2, htr]
        simp
      · rw [hout] at h1
        cases h1
    · rcases main_shape env o fuel w with ⟨h1, _, _⟩ | ⟨_, h2, h3⟩
      · rw [hout] at h1
        cases h1
      · refine Or.inr (Or.inr ⟨_, ?_, (loopAndDone_shape env o.Watch fuel _).1, hout, rfl, h3⟩)
        rw [h2, htr]
        simp

theorem NameShape.not_failure {σ : Type} {env : Env σ} {o : Options} {w : σ} {N : List Event}
    {name : String} (h : NameShape env o w N name) (hn : o.Name = "")
    (hfail : NameFailure env (env.readFile SerializeFile w).1) : False := by
  rcases h with ⟨h, _⟩ | ⟨_, j, node, hrf, hj, hu, _, _⟩
  · exact h hn
  · rw [hrf] at hfail
    rcases hfail with ⟨e, he⟩ | he | ⟨j2, e, he, hu2⟩
    · cases he
    · cases he
      exact hj rfl
    · cases he
      rw [hu] at hu2
      cases hu2

theorem exitStatus_of_out {σ : Type} {r : Res σ Unit} {c : Nat} (h : r.out = .exit c) :
    exitStatus r = some c := by
  unfold exitStatus
  rw [h]

theorem cons_eq_append_cons {x y : Event} {l pre post : List Event} :
    x :: l = pre ++ y :: post ↔
      (pre = [] ∧ x = y ∧ l = post) ∨ ∃ p, pre = x :: p ∧ l = p ++ y :: post := by
  cases pre with
  | nil => simp
  | cons a p =>
    simp only [List.cons_append, List.cons.injEq]
    constructor
    · rintro ⟨rfl, h⟩
      exact Or.inr ⟨p, ⟨rfl, rfl⟩, h⟩
    · rintro (⟨h, _⟩ | ⟨q, ⟨rfl, rfl⟩, h⟩)
      · cases h
      · exact ⟨rfl, h⟩

theorem getLast?_cons_of_ne_nil {a : Event} {l : List Event} (h : l ≠ []) :
    (a :: l).getLast? = l.getLast? := by
  cases l with
  | nil => exact absurd rfl h
  | cons b t => rw [List.getLast?_cons_cons]

theorem Calls.no_start {watch : Bool} {l : List Event} {out : Outcome Unit}
    (h : Calls watch l out) : l.countP Event.isStart = 0 := by
  induction h with
  | fuel => rfl
  | updateFails e => rfl
  | once d _ => rfl
  | readFails e _ => rfl
  | again _ _ ih =>
    rw [List.countP_cons, List.countP_cons, ih]
    rfl

/-- Where an `Update` call stands in a call sequence of the loop. -/
theorem Calls.update_decomp {watch : Bool} {l : List Event} {out : Outcome Unit}
    (h : Calls watch l out) :
    ∀ pre r post, l = pre ++ .update r :: post →
      pre.countP Event.isRead = pre.countP Event.isUpdate ∧
      pre.countP Event.isStart = 0 ∧ post.countP Event.isStart = 0 ∧
      (pre.countP Event.isUpdate = 0 → pre = []) ∧
      (pre.countP Event.isUpdate ≠ 0 → pre.getLast? = some (.read none)) ∧
      (∀ e, r = some e → post = [] ∧ out = .exit 1) := by
  induction h with
  | fuel =>
    intro pre r post h
    cases pre <;> cases h
  | updateFails e =>
    intro pre r post h
    rw [cons_eq_append_cons] at h
    rcases h with ⟨rfl, h1, rfl⟩ | ⟨p, _, h2⟩
    · simp
    · cases p <;> cases h2
  | once d hw =>
    intro pre r post h
    rw [cons_eq_append_cons] at h
    rcases h with ⟨rfl, h1, rfl⟩ | ⟨p, _, h2⟩
    · cases h1
      simp [Event.isStart]
    · rw [cons_eq_append_cons] at h2
      rcases h2 with ⟨_, h3, _⟩ | ⟨q, _, h3⟩
      · cases h3
      · cases q <;> cases h3
  | readFails e hw =>
    intro pre r post h
    rw [cons_eq_append_cons] at h
    rcases h with ⟨rfl, h1, rfl⟩ | ⟨p, _, h2⟩
    · cases h1
      simp [Event.isStart]
    · rw [cons_eq_append_cons] at h2
      rcases h2 with ⟨_, h3, _⟩ | ⟨q, _, h3⟩
      · cases h3
      · cases q <;> cases h3
  | @again l0 out0 hw hc ih =>
    intro pre r post h
    rw [cons_eq_append_cons] at h
    rcases h with ⟨rfl, h1, rfl⟩ | ⟨p, rfl, h2⟩
    · cases h1
      have := hc.no_start
      simp [Event.isStart, List.countP_cons, this]
    · rw [cons_eq_append_cons] at h2
      rcases h2 with ⟨_, h3, _⟩ | ⟨q, rfl, h3⟩
      · cases h3
      · obtain ⟨i1, i2, i3, i4, i5, i6⟩ := ih q r post h3
        refine ⟨?_, ?_, i3, ?_, ?_, i6⟩
        · simp [List.countP_cons, Event.isRead, Event.isUpdate, i1]
        · simp [List.countP_cons, Event.isStart, i2]
        · intro h0
          simp [List.countP_cons, Event.isUpdate] at h0
        · intro _
          by_cases hq : q = []
          · subst hq
            rfl
          · rw [getLast?_cons_of_ne_nil (by simp), getLast?_cons_of_ne_nil hq]
            exact i5 (fun h0 => hq (i4 h0))

/-- Where a `Read` call stands in a call sequence of the loop. -/
theorem Calls.read_decomp {watch : Bool} {l : List Event} {out : Outcome Unit}
    (h : Calls watch l out) :
    ∀ pre r post, l = pre ++ .read r :: post →
      pre.getLast? = some (.update none) ∧ watch = true ∧
      (∀ e, r = some e → post = [] ∧ out = .exit 1) := by
  induction h with
  | fuel =>
    intro pre r post h
    cases pre <;> cases h
  | updateFails e =>
    intro pre r post h
    rw [cons_eq_append_cons] at h
    rcases h with ⟨_, h1, _⟩ | ⟨p, _, h2⟩
    · cases h1
    · cases p <;> cases h2
  | once d hw =>
    intro pre r post h
    rw [cons_eq_append_cons] at h
    rcases h with ⟨_, h1, _⟩ | ⟨p, _, h2⟩
    · cases h1
    · rw [cons_eq_append_cons] at h2
      rcases h2 with ⟨_, h3, _⟩ | ⟨q, _, h3⟩
      · cases h3
      · cases q <;> cases h3
  | readFails e hw =>
    intro pre r post h
    rw [cons_eq_append_cons] at h
    rcases h with ⟨_, h1, _⟩ | ⟨p, rfl, h2⟩
    · cases h1
    · rw [cons_eq_append_cons] at h2
      rcases h2 with ⟨rfl, h3, rfl⟩ | ⟨q, _, h3⟩
      · cases h3
        exact ⟨rfl, hw, fun _ _ => ⟨rfl, rfl⟩⟩
      · cases q <;> cases h3
  | @again l0 out0 hw hc ih =>
    intro pre r post h
    rw [cons_eq_append_cons] at h
    rcases h with ⟨_, h1, _⟩ | ⟨p, rfl, h2⟩
    · cases h1
    · rw [cons_eq_append_cons] at h2
      rcases h2 with ⟨rfl, h3, rfl⟩ | ⟨q, rfl, h3⟩
      · cases h3
        exact ⟨rfl, hw, fun e he => by cases he⟩
      · obtain ⟨i1, i2, i3⟩ := ih q r post h3
        refine ⟨?_, i2, i3⟩
        have hq : q ≠ [] := by
          intro h0
          subst h0
          cases i1
        rw [getLast?_cons_of_ne_nil (by simp), getLast?_cons_of_ne_nil hq]
        exact i1

/-- How a call sequence of the loop ends, and when it holds a `Done` call. -/
theorem Calls.ending {watch : Bool} {l : List Event} {out : Outcome Unit}
    (h : Calls watch l out) :
    (∀ c, out = .exit c → c = 1 ∧ ∃ e, l.getLast? = some (.update (some e)) ∨
      l.getLast? = some (.read (some e))) ∧
    (watch = true → out ≠ .ok () ∧ ∀ x ∈ l, x.isDone = false) ∧
    ((∃ d, Event.done d ∈ l) ↔ watch = false ∧ l.filter Event.isUpdate = [.update none]) ∧
    (out = .ok () → watch = false ∧ ∃ d, l = [.update none, .done d]) := by
  induction h with
  | fuel => simp
  | updateFails e => simp [Event.isUpdate, Event.isDone]
  | once d hw => simp [Event.isUpdate, Event.isDone, hw]
  | readFails e hw => simp [Event.isUpdate, Event.isDone, hw]
  | @again l0 out0 hw hc ih =>
    obtain ⟨i1, i2, i3, i4⟩ := ih
    refine ⟨?_, ?_, ?_, ?_⟩
    · intro c hc0
      obtain ⟨h1, e, h2⟩ := i1 c hc0
      refine ⟨h1, e, ?_⟩
      have hl : l0 ≠ [] := by
        intro h0
        subst h0
        rcases h2 with h2 | h2 <;> cases h2
      rw [getLast?_cons_of_ne_nil (by simp), getLast?_cons_of_ne_nil hl]
      exact h2
    · intro _
      refine ⟨(i2 hw).1, ?_⟩
      intro x hx
      rw [List.mem_cons, List.mem_cons] at hx
      rcases hx with h | h | h
      · subst h; rfl
      · subst h; rfl
      · exact (i2 hw).2 x h
    · simp only [hw, Bool.true_eq_false, false_and, iff_false, not_exists]
      intro d hd
      rw [List.mem_cons, List.mem_cons] at hd
      rcases hd with h | h | h
      · cases h
      · cases h
      · have := (i2 hw).2 _ h
        cases this
    · intro h0
      exact absurd h0 (i2 hw).1

/-- The engine calls of any run: none, with exit status 1, when the options
do not parse or the setup fails; otherwise `Start` followed by one of the
sequences of `Calls`. -/
theorem main_calls_any {σ : Type} (env : Env σ) (parsed : Result Options) (fuel : Nat)
    (w : σ) :
    (engineCalls (main env parsed fuel w).trace = [] ∧
      (main env parsed fuel w).out = .exit 1) ∨
    (∃ o l, parsed = .ok o ∧ (setup env o w).out = .ok () ∧
      engineCalls (main env parsed fuel w).trace = .start :: l ∧
      Calls o.Watch l (main env parsed fuel w).out) := by
  cases parsed with
  | err e => exact Or.inl ⟨rfl, rfl⟩
  | ok o =>
    rcases main_calls env o fuel w with ⟨_, h2, h3⟩ | ⟨h1, l, h2, h3⟩
    · exact Or.inl ⟨h2, h3⟩
    · exact Or.inr ⟨o, l, rfl, h1, h2, h3⟩

theorem engineCalls_decomp {tr pre post : List Event} {x : Event}
    (h : tr = pre ++ x :: post) (hx : x.isEngineCall = true) :
    engineCalls tr = engineCalls pre ++ x :: engineCalls post := by
  subst h
  simp [engineCalls, List.filter_cons, hx]

theorem not_engine_of_engineCalls_nil {l : List Event} (h : engineCalls l = []) :
    ∀ x ∈ l, x.isEngineCall = false := by
  intro x hx
  unfold engineCalls at h
  rw [List.filter_eq_nil_iff] at h
  simpa using h x hx

theorem mem_engineCalls {x : Event} {tr : List Event} (hx : x.isEngineCall = true) :
    x ∈ engineCalls tr ↔ x ∈ tr := by
  simp [engineCalls, List.mem_filter, hx]

theorem filter_isUpdate_engineCalls (tr : List Event) :
    (engineCalls tr).filter Event.isUpdate = tr.filter Event.isUpdate := by
  unfold engineCalls
  rw [List.filter_filter]
  congr 1
  funext x
  cases x <;> rfl

/-- The teardown: the `Done` call, then the log line that reports its error,
or its success. -/
theorem finish_eq {σ : Type} (env : Env σ) (w : σ) :
    (∀ e, (env.done w).1 = some e →
      finish env w =
        ⟨[.done (some e), .printf ("update done: " ++ e)], (env.done w).2, .ok ()⟩) ∧
    ((env.done w).1 = none →
      finish env w = ⟨[.done none, .printf "update done"], (env.done w).2, .ok ()⟩) := by
  unfold finish
  generalize env.done w = p
  rcases p with ⟨d, w1⟩
  cases d with
  | some e0 =>
    refine ⟨fun e he => ?_, fun h => ?_⟩
    · cases he
      rfl
    · cases h
  | none =>
    refine ⟨fun e he => ?_, fun _ => rfl⟩
    cases he

/-- A successful setup ends with the successful address scan. -/
theorem setup_ok_last {σ : Type} (env : Env σ) (o : Options) (w : σ)
    (h : (setup env o w).out = .ok ()) :
    (setup env o w).trace.getLast? =
      some (.interfaceAddrs o.Interface o.InterfaceFamily none) := by
  rcases setup_shape env o w with ⟨_, _, _, _, _, _, hout⟩ |
    ⟨N, name, H, hostname, _, _, ⟨e, _, hout⟩ | ⟨e, _, hout⟩ | ⟨htr, _⟩⟩
  · rw [hout] at h
    cases h
  · rw [hout] at h
    cases h
  · rw [hout] at h
    cases h
  · rw [htr, List.getLast?_append]
    rfl

/-! ## Rounding -/

theorem roundHalfEven_intCast (n : ℤ) : roundHalfEven (n : ℚ) = n := by
  unfold roundHalfEven
  simp

theorem roundHalfEven_nonneg {q : ℚ} (h : 0 ≤ q) : 0 ≤ roundHalfEven q := by
  unfold roundHalfEven
  have hf : (0 : ℤ) ≤ ⌊q⌋ := Int.floor_nonneg.2 h
  dsimp only
  split_ifs <;> omega

theorem roundHalfEven_le {q : ℚ} {n : ℤ} (h : q ≤ n) : roundHalfEven q ≤ n := by
  unfold roundHalfEven
  have hf : ⌊q⌋ ≤ n := by
    have hq : ((⌊q⌋ : ℤ) : ℚ) ≤ (n : ℚ) := (Int.floor_le q).trans h
    exact_mod_cast hq
  have hstep : ¬ (q - (⌊q⌋ : ℚ) < 1 / 2) → ⌊q⌋ + 1 ≤ n := by
    intro hr
    have h1 : (⌊q⌋ : ℚ) < q := by linarith
    have h2 : (⌊q⌋ : ℚ) < (n : ℚ) := lt_of_lt_of_le h1 h
    have h3 : ⌊q⌋ < n := by exact_mod_cast h2
    omega
  dsimp only
  split_ifs with h1 h2 h3
  · exact hf
  · exact hstep h1
  · exact hf
  · exact hstep h1

/-- With a scaling exponent `-k`, `k` a natural number, the rounding is
`roundHalfEven (q * 2^k) / 2^k`. -/
theorem roundF64_scaled {q : ℚ} (hq : q ≠ 0) {k : ℕ}
    (hk : Int.log 2 |q| - 52 = -(k : ℤ)) :
    roundF64 q = (roundHalfEven (q * 2 ^ k) : ℚ) / 2 ^ k := by
  unfold roundF64
  rw [if_neg hq]
  dsimp only
  rw [hk, zpow_neg, zpow_natCast, div_inv_eq_mul, div_eq_mul_inv]

theorem log_sub_eq_neg {q : ℚ} (hq : 0 < |q|) {m : ℕ} (hm : |q| < 2 ^ m) (hm52 : m ≤ 53) :
    ∃ k : ℕ, Int.log 2 |q| - 52 = -(k : ℤ) ∧ (53 : ℤ) - m ≤ k := by
  have hlog : Int.log 2 |q| < (m : ℤ) :=
    (Int.lt_zpow_iff_log_lt (b := 2) (by norm_num) hq).1 (by
      rw [zpow_natCast]
      exact_mod_cast hm)
  refine ⟨(52 - Int.log 2 |q|).toNat, ?_, ?_⟩
  · rw [Int.toNat_of_nonneg (by omega)]
    ring
  · rw [Int.toNat_of_nonneg (by omega)]
    omega

/-- An integer below `2^53` in magnitude is a `float64`: the conversion is
exact. -/
theorem roundF64_intCast (n : ℤ) (h : |n| < 2 ^ 53) : roundF64 (n : ℚ) = n := by
  by_cases hn : n = 0
  · subst hn
    simp [roundF64]
  · have hq : (n : ℚ) ≠ 0 := by exact_mod_cast hn
    have habs : |(n : ℚ)| < 2 ^ 53 := by
      have : ((|n| : ℤ) : ℚ) < ((2 ^ 53 : ℤ) : ℚ) := by exact_mod_cast h
      rw [Int.cast_abs] at this
      exact_mod_cast this
    obtain ⟨k, hk, _⟩ := log_sub_eq_neg (abs_pos.2 hq) habs le_rfl
    rw [roundF64_scaled hq hk]
    have : (n : ℚ) * 2 ^ k = ((n * 2 ^ k : ℤ) : ℚ) := by push_cast; ring
    rw [this, roundHalfEven_intCast]
    push_cast
    field_simp

/-- The rounding never carries a value of `[0, 1 - 2^-53]` up to `1`. -/
theorem roundF64_lt_one {q : ℚ} (h0 : 0 ≤ q) (h1 : q ≤ 1 - 1 / 2 ^ 53) :
    0 ≤ roundF64 q ∧ roundF64 q ≤ 1 - 1 / 2 ^ 53 := by
  by_cases hq : q = 0
  · subst hq
    simp [roundF64]
    norm_num
  · have hpos : 0 < q := lt_of_le_of_ne h0 (Ne.symm hq)
    have habs : |q| < 2 ^ 0 := by
      rw [abs_of_pos hpos]
      have : (1 : ℚ) - 1 / 2 ^ 53 < 1 := by norm_num
      simpa using lt_of_le_of_lt h1 this
    obtain ⟨k, hk, hk53⟩ := log_sub_eq_neg (abs_pos.2 hq) habs (by norm_num)
    have hk53n : 53 ≤ k := by omega
    rw [roundF64_scaled hq hk]
    have hpow : (0 : ℚ) < 2 ^ k := by positivity
    constructor
    · apply div_nonneg
      · exact_mod_cast roundHalfEven_nonneg (by positivity)
      · exact hpow.le
    · obtain ⟨j, rfl⟩ : ∃ j, k = 53 + j := ⟨k - 53, by omega⟩
      have hle : q * 2 ^ (53 + j) ≤ ((2 ^ (53 + j) - 2 ^ j : ℤ) : ℚ) := by
        push_cast
        have h2j : (0 : ℚ) < 2 ^ j := by positivity
        have : q * 2 ^ (53 + j) ≤ (1 - 1 / 2 ^ 53) * 2 ^ (53 + j) :=
          mul_le_mul_of_nonneg_right h1 hpow.le
        have e : ((1 : ℚ) - 1 / 2 ^ 53) * 2 ^ (53 + j) = 2 ^ (53 + j) - 2 ^ j := by
          rw [pow_add]
          field_simp
          ring
        linarith
      have hr := roundHalfEven_le hle
      rw [div_le_iff₀ hpow]
      have hr2 : (roundHalfEven (q * 2 ^ (53 + j)) : ℚ) ≤ ((2 ^ (53 + j) - 2 ^ j : ℤ) : ℚ) := by
        exact_mod_cast hr
      have e : ((1 : ℚ) - 1 / 2 ^ 53) * 2 ^ (53 + j) = 2 ^ (53 + j) - 2 ^ j := by
        rw [pow_add]
        field_simp
        ring
      rw [e]
      push_cast at hr2
      exact hr2

theorem floatToInt_intCast (n : ℤ) : floatToInt (n : ℚ) = n := by
  unfold floatToInt
  split_ifs <;> simp

theorem floatToInt_lt_one {x : ℚ} (h0 : 0 ≤ x) (h1 : x < 1) : floatToInt x = 0 := by
  unfold floatToInt
  rw [if_pos h0, Int.floor_eq_zero_iff]
  exact ⟨h0, h1⟩

/-- A duration of exactly `k` seconds converts to `k`. -/
theorem seconds_exact (k : Int) (hk : 0 ≤ k) (hk63 : k * 1000000000 < 9223372036854775808) :
    floatToInt (Duration.Seconds (k * 1000000000)) = k := by
  have hks : |k| < 2 ^ 53 := by
    rw [abs_of_nonneg hk]
    have : k < 9007199254740992 := by omega
    simpa using this
  unfold Duration.Seconds Second
  rw [Int.mul_tdiv_cancel _ (by norm_num), Int.mul_tmod_left]
  dsimp only
  have h0 : roundF64 ((0 : ℤ) : ℚ) = 0 := by simp [roundF64]
  rw [h0, zero_div]
  have h00 : roundF64 (0 : ℚ) = 0 := by simp [roundF64]
  rw [h00, add_zero, roundF64_intCast k hks, roundF64_intCast k hks, floatToInt_intCast]

/-- A duration below one second converts to `0`. -/
theorem seconds_subsecond (d : Int) (h0 : 0 ≤ d) (h1 : d < 1000000000) :
    floatToInt (Duration.Seconds d) = 0 := by
  unfold Duration.Seconds Second
  rw [Int.tdiv_eq_zero_of_lt h0 h1, Int.tmod_eq_of_lt h0 h1]
  dsimp only
  have hz : roundF64 ((0 : ℤ) : ℚ) = 0 := by simp [roundF64]
  have hds : |d| < 2 ^ 53 := by
    rw [abs_of_nonneg h0]
    have : d < 9007199254740992 := by omega
    simpa using this
  rw [hz, zero_add, roundF64_intCast _ hds]
  have hq0 : (0 : ℚ) ≤ (d : ℚ) / 1000000000 := by
    apply div_nonneg
    · exact_mod_cast h0
    · norm_num
  have hq1 : (d : ℚ) / 1000000000 ≤ 1 - 1 / 2 ^ 53 := by
    have h2 : (d : ℚ) ≤ 999999999 := by
      have : d ≤ 999999999 := by omega
      exact_mod_cast this
    rw [div_le_iff₀ (by norm_num)]
    norm_num
    linarith
  obtain ⟨a0, a1⟩ := roundF64_lt_one hq0 hq1
  obtain ⟨b0, b1⟩ := roundF64_lt_one a0 a1
  apply floatToInt_lt_one b0
  have : (1 : ℚ) - 1 / 2 ^ 53 < 1 := by norm_num
  linarith

/-! # The claims -/

/-- C2. With no positional name, when the node record file cannot be read, is
empty, or does not decode, `main` ends with exit status 1 before `update.Init`:
the run makes no `Init`, `InitTSIG`, address scan, `Start`, `Update`, `Read`
or `Done` call. -/
theorem main_name_failure {σ : Type} (env : Env σ) (o : Options) (fuel : Nat) (w : σ)
    (hname : o.Name = "")
    (hfail : (∃ e, (env.readFile SerializeFile w).1 = .err e) ∨
      (env.readFile SerializeFile w).1 = .ok [] ∨
      ∃ j e, (env.readFile SerializeFile w).1 = .ok j ∧ env.unmarshal j = .err e) :
    exitStatus (main env (.ok o) fuel w) = some 1 ∧
    ∀ x ∈ (main env (.ok o) fuel w).trace,
      x.isInit = false ∧ x.isInitTSIG = false ∧ x.isScan = false ∧ x.isStart = false ∧
        x.isUpdate = false ∧ x.isRead = false ∧ x.isDone = false := by
  rcases main_full_shape env o fuel w with ⟨_, _, htr, hout⟩ | ⟨N, name, H, hostname, hN, _⟩
  · refine ⟨exitStatus_of_out hout, ?_⟩
    intro x hx
    rw [htr, List.mem_cons, List.mem_singleton] at hx
    rcases hx with h | h <;> subst h <;> simp [Event.isInit, Event.isInitTSIG, Event.isScan,
      Event.isStart, Event.isUpdate, Event.isRead, Event.isDone]
  · exact (hN.not_failure hname hfail).elim

/-- Witness of C2: the node record file cannot be read. -/
theorem main_name_failure_witness :
    defaultOptions.Name = "" ∧
    (missingFileScript.env.readFile SerializeFile 0).1 = .err "no such file" ∧
    exitStatus (main missingFileScript.env (.ok defaultOptions) 1 0) = some 1 :=
  ⟨rfl, rfl,
    (main_name_failure missingFileScript.env defaultOptions 1 0 rfl
      (Or.inl ⟨"no such file", rfl⟩)).1⟩

/-- C3. Without watching, after a successful setup, `main` performs one
reconciliation and stops: it makes exactly one `Update` call and no `Read`
call, and it ends.  When that `Update` call succeeds, the events after the
setup (which ends with the address scan) are exactly `Start`, `Update` and
`Done` with their log lines: when `Done` returns the error `e` the line
`update done: e` is logged, when it returns no error the line `update done`;
in both cases `Done` is called once, nothing follows the log line, and `main`
returns normally (exit status 0). -/
theorem main_one_shot {σ : Type} (env : Env σ) (o : Options) (fuel : Nat) (w : σ)
    (hwatch : o.Watch = false) (hsetup : (setup env o w).out = .ok ()) :
    (((main env (.ok o) (fuel + 1) w).trace.filter Event.isUpdate).length = 1 ∧
      (∀ x ∈ (main env (.ok o) (fuel + 1) w).trace, x.isRead = false) ∧
      exitStatus (main env (.ok o) (fuel + 1) w) ≠ none ∧
      (setup env o w).trace.getLast? =
        some (.interfaceAddrs o.Interface o.InterfaceFamily none)) ∧
    ((env.update (env.start (setup env o w).world)).1 = none →
      (∀ e, (env.done (env.update (env.start (setup env o w).world)).2).1 = some e →
        (main env (.ok o) (fuel + 1) w).trace = (setup env o w).trace ++
          [.start, .printf "update...", .update none, .printf "wait...",
            .done (some e), .printf ("update done: " ++ e)]) ∧
      ((env.done (env.update (env.start (setup env o w).world)).2).1 = none →
        (main env (.ok o) (fuel + 1) w).trace = (setup env o w).trace ++
          [.start, .printf "update...", .update none, .printf "wait...",
            .done none, .printf "update done"]) ∧
      engineCalls (main env (.ok o) (fuel + 1) w).trace =
        [.start, .update none,
          .done (env.done (env.update (env.start (setup env o w).world)).2).1] ∧
      exitStatus (main env (.ok o) (fuel + 1) w) = some 0) := by
  have hq : ∀ x ∈ (setup env o w).trace, x.isEngineCall = false := fun x hx =>
    Event.isSetupEvent_class (setup_events env o w x hx)
  have hfu : (setup env o w).trace.filter Event.isUpdate = [] := by
    rw [List.filter_eq_nil_iff]
    intro x hx
    simp [Event.not_engine_class (hq x hx)]
  rcases main_shape env o (fuel + 1) w with ⟨h1, _, _⟩ | ⟨_, htr, hout⟩
  · rw [hsetup] at h1
    cases h1
  · rw [hwatch, loopAndDone_succ] at htr hout
    rcases hu : env.update (env.start (setup env o w).world) with ⟨ue, w7⟩
    rw [hu] at htr hout
    cases ue with
    | some e =>
      simp only at htr hout
      refine ⟨⟨?_, ?_, ?_, setup_ok_last env o w hsetup⟩, ?_⟩
      · rw [htr, List.filter_append, hfu]
        rfl
      · intro x hx
        rw [htr, List.mem_append] at hx
        rcases hx with h | h
        · simp [Event.not_engine_class (hq x h)]
        · simp only [List.mem_cons, List.not_mem_nil, or_false] at h
          rcases h with h | h | h | h <;> subst h <;> rfl
      · rw [exitStatus_of_out hout]
        simp
      · intro h
        cases h
    | none =>
      obtain ⟨hfe, hfn⟩ := finish_eq env w7
      have hmsg : ∃ msg, finish env w7 =
          ⟨[.done (env.done w7).1, .printf msg], (env.done w7).2, .ok ()⟩ := by
        cases hd : (env.done w7).1 with
        | some e => exact ⟨_, hfe e hd⟩
        | none => exact ⟨_, hfn hd⟩
      obtain ⟨msg, hf⟩ := hmsg
      simp only [if_true, Res.prepend_trace, Res.prepend_out, List.cons_append,
        List.nil_append] at htr hout
      have hst : exitStatus (main env (.ok o) (fuel + 1) w) = some 0 := by
        unfold exitStatus
        rw [hout, hf]
      refine ⟨⟨?_, ?_, ?_, setup_ok_last env o w hsetup⟩, ?_⟩
      · rw [htr, hf, List.filter_append, hfu]
        rfl
      · intro x hx
        rw [htr, hf, List.mem_append] at hx
        rcases hx with h | h
        · simp [Event.not_engine_class (hq x h)]
        · simp only [List.mem_cons, List.not_mem_nil, or_false] at h
          rcases h with h | h | h | h | h | h <;> subst h <;> rfl
      · rw [hst]
        simp
      · intro _
        refine ⟨?_, ?_, ?_, hst⟩
        · intro e he
          rw [htr, hfe e he]
        · intro he
          rw [htr, hfn he]
        · rw [htr, hf, engineCalls_append, engineCalls_setup]
          rfl

/-- Witness of C3: the one-shot run in which every call succeeds, and the
one-shot run whose `Done` call fails, which logs the failure and still returns
normally. -/
theorem main_one_shot_witness :
    (defaultOptions.Watch = false ∧ (setup quietScript.env defaultOptions 0).out = .ok () ∧
      engineCalls (main quietScript.env (.ok defaultOptions) 1 0).trace =
        [.start, .update none, .done none] ∧
      exitStatus (main quietScript.env (.ok defaultOptions) 1 0) = some 0) ∧
    ((setup failingDoneScript.env defaultOptions 0).out = .ok () ∧
      (main failingDoneScript.env (.ok defaultOptions) 1 0).trace =
        (setup failingDoneScript.env defaultOptions 0).trace ++
          [.start, .printf "update...", .update none, .printf "wait...",
            .done (some "timeout"), .printf ("update done: " ++ "timeout")] ∧
      exitStatus (main failingDoneScript.env (.ok defaultOptions) 1 0) = some 0) :=
  ⟨⟨rfl, by decide,
      ((main_one_shot quietScript.env defaultOptions 0 0 rfl (by decide)).2 rfl).2.2.1,
      ((main_one_shot quietScript.env defaultOptions 0 0 rfl (by decide)).2 rfl).2.2.2⟩,
    ⟨by decide,
      ((main_one_shot failingDoneScript.env defaultOptions 0 0 rfl (by decide)).2 rfl).1
        "timeout" rfl,
      ((main_one_shot failingDoneScript.env defaultOptions 0 0 rfl (by decide)).2 rfl).2.2.2⟩⟩

/-- C5. An `Update` error aborts the run at once: when a call of
`update.Update` returns an error, `main` ends with exit status 1, and after
that call it makes no `Update`, `Read` or `Done` call (nor any other engine
call), with watching enabled or not. -/
theorem main_update_error_aborts {σ : Type} (env : Env σ) (parsed : Result Options)
    (fuel : Nat) (w : σ) (pre post : List Event) (e : String)
    (h : (main env parsed fuel w).trace = pre ++ .update (some e) :: post) :
    exitStatus (main env parsed fuel w) = some 1 ∧
    ∀ x ∈ post, x.isUpdate = false ∧ x.isRead = false ∧ x.isDone = false ∧
      x.isStart = false := by
  have hd := engineCalls_decomp h (x := .update (some e)) rfl
  rcases main_calls_any env parsed fuel w with ⟨h1, _⟩ | ⟨o, l, _, _, h1, hc⟩
  · rw [h1] at hd
    cases hpre : engineCalls pre <;> rw [hpre] at hd <;> cases hd
  · rw [h1, cons_eq_append_cons] at hd
    rcases hd with ⟨_, h2, _⟩ | ⟨p, _, h2⟩
    · cases h2
    · obtain ⟨hpost, hout⟩ := (hc.update_decomp p (some e) _ h2).2.2.2.2.2 e rfl
      refine ⟨exitStatus_of_out hout, ?_⟩
      intro x hx
      have := Event.not_engine_class (not_engine_of_engineCalls_nil hpost x hx)
      simp [this]

/-- Witness of C5: the first `Update` call fails. -/
theorem main_update_error_aborts_witness :
    (main failingUpdateScript.env (.ok defaultOptions) 1 0).trace =
      ((setup failingUpdateScript.env defaultOptions 0).trace ++
        [.start, .printf "update..."]) ++
        .update (some "refused") :: [.fatalf "update: refused"] ∧
    exitStatus (main failingUpdateScript.env (.ok defaultOptions) 1 0) = some 1 :=
  have htr : (main failingUpdateScript.env (.ok defaultOptions) 1 0).trace =
      ((setup failingUpdateScript.env defaultOptions 0).trace ++
        [.start, .printf "update..."]) ++
        .update (some "refused") :: [.fatalf "update: refused"] := rfl
  ⟨htr, (main_update_error_aborts failingUpdateScript.env (.ok defaultOptions) 1 0 _ _
    "refused" htr).1⟩

/-- C7. `Update` and `Read` calls alternate, beginning with `Update`.  In the
sequence of engine calls of any run (so also with watching enabled): before
every `Update` call there are as many `Read` calls as `Update` calls (the
k-th `Update` is preceded by exactly k-1 `Read`s), `Start` was called exactly
once and is not called again; the first `Update` comes right after `Start`,
every later `Update` right after a `Read` that returned no error; and every
`Read` comes right after an `Update` that returned no error. -/
theorem main_update_read_alternate {σ : Type} (env : Env σ) (parsed : Result Options)
    (fuel : Nat) (w : σ) :
    (∀ pre r post, engineCalls (main env parsed fuel w).trace = pre ++ .update r :: post →
      pre.countP Event.isRead = pre.countP Event.isUpdate ∧
      pre.countP Event.isStart = 1 ∧ post.countP Event.isStart = 0 ∧
      (pre.countP Event.isUpdate = 0 → pre = [.start]) ∧
      (pre.countP Event.isUpdate ≠ 0 → pre.getLast? = some (.read none))) ∧
    (∀ pre r post, engineCalls (main env parsed fuel w).trace = pre ++ .read r :: post →
      pre.getLast? = some (.update none)) := by
  rcases main_calls_any env parsed fuel w with ⟨h1, _⟩ | ⟨o, l, _, _, h1, hc⟩
  · rw [h1]
    constructor <;> intro pre r post h <;> cases pre <;> cases h
  · rw [h1]
    constructor
    · intro pre r post h
      rw [cons_eq_append_cons] at h
      rcases h with ⟨_, h2, _⟩ | ⟨p, rfl, h2⟩
      · cases h2
      · obtain ⟨i1, i2, i3, i4, i5, _⟩ := hc.update_decomp p r post h2
        refine ⟨?_, ?_, i3, ?_, ?_⟩
        · simp [List.countP_cons, Event.isRead, Event.isUpdate, i1]
        · simp [List.countP_cons, Event.isStart, i2]
        · intro h0
          have : p.countP Event.isUpdate = 0 := by
            simpa [List.countP_cons, Event.isUpdate] using h0
          rw [i4 this]
        · intro h0
          have h0p : p.countP Event.isUpdate ≠ 0 := by
            simpa [List.countP_cons, Event.isUpdate] using h0
          have hp : p ≠ [] := by
            intro hnil
            subst hnil
            exact h0p rfl
          rw [getLast?_cons_of_ne_nil hp]
          exact i5 h0p
    · intro pre r post h
      rw [cons_eq_append_cons] at h
      rcases h with ⟨_, h2, _⟩ | ⟨p, rfl, h2⟩
      · cases h2
      · obtain ⟨i1, _, _⟩ := hc.read_decomp p r post h2
        have hp : p ≠ [] := by
          intro hnil
          subst hnil
          cases i1
        rw [getLast?_cons_of_ne_nil hp]
        exact i1

/-- Witness of C7: two rounds of a watch-enabled run; the second `Update`
comes right after a successful `Read`. -/
theorem main_update_read_alternate_witness :
    watchOptions.Watch = true ∧
    engineCalls (main quietScript.env (.ok watchOptions) 2 0).trace =
      [.start, .update none, .read none] ++ .update none :: [.read none] ∧
    [Event.start, .update none, .read none].getLast? = some (.read none) :=
  ⟨rfl, by decide,
    ((main_update_read_alternate quietScript.env (.ok watchOptions) 2 0).1
      [.start, .update none, .read none] none [.read none] (by decide)).2.2.2.2 (by decide)⟩

/-- C8. The TTL handed to the update engine is the configured TTL in whole
seconds: a `--ttl` duration of exactly `k` seconds (`k ≥ 0`, the duration an
int64 count of nanoseconds, so below `2^63`) gives `ttl = k`, and a duration
`d` with `0 ≤ d < 1s` gives `ttl = 0`. -/
theorem mkUpdate_ttl (o : Options) :
    (∀ k : Int, 0 ≤ k → k * 1000000000 < 2 ^ 63 → o.TTL = k * 1000000000 →
      (mkUpdate o).ttl = k) ∧
    (0 ≤ o.TTL → o.TTL < 1000000000 → (mkUpdate o).ttl = 0) := by
  constructor
  · intro k hk hk63 hd
    show floatToInt (Duration.Seconds o.TTL) = k
    rw [hd]
    exact seconds_exact k hk (by simpa using hk63)
  · intro h0 h1
    exact seconds_subsecond o.TTL h0 h1

/-- Witness of C8: the default TTL of 60s gives 60, and 999999999ns gives 0. -/
theorem mkUpdate_ttl_witness :
    ((0 : Int) ≤ 60 ∧ (60 : Int) * 1000000000 < 2 ^ 63 ∧
      defaultOptions.TTL = 60 * 1000000000 ∧ (mkUpdate defaultOptions).ttl = 60) ∧
    (0 ≤ subSecondOptions.TTL ∧ subSecondOptions.TTL < 1000000000 ∧
      (mkUpdate subSecondOptions).ttl = 0) :=
  ⟨⟨by decide, by decide, by decide,
      (mkUpdate_ttl defaultOptions).1 60 (by decide) (by decide) (by decide)⟩,
    ⟨by decide, by decide, (mkUpdate_ttl subSecondOptions).2 (by decide) (by decide)⟩⟩

/-- Counterexample to C10 as stated: a watch-enabled run that terminates with
exit status 1 although no `Update` and no `Read` call returned an error (none
was made): the `Init` call failed. -/
theorem watch_setup_failure_counterexample :
    watchOptions.Watch = true ∧
    exitStatus (main failingInitScript.env (.ok watchOptions) 1 0) = some 1 ∧
    ∀ x ∈ (main failingInitScript.env (.ok watchOptions) 1 0).trace,
      x.isUpdate = false ∧ x.isRead = false := by
  decide

/-- C10 (amended). With watching enabled `update.Done` is never called and
the loop is only left by a fatal error: every terminating watch-enabled run has
exit status 1, and when it has reached `update.Start` its last engine call is
an `Update` or a `Read` that returned an error (before `Start`, it is the setup
that failed).  In any run, `Done` is called if and only if watching is disabled
and the single `Update` call succeeded. -/
theorem main_done_iff {σ : Type} (env : Env σ) (o : Options) (fuel : Nat) (w : σ) :
    (o.Watch = true →
      (∀ x ∈ (main env (.ok o) fuel w).trace, x.isDone = false) ∧
      ∀ c, exitStatus (main env (.ok o) fuel w) = some c →
        c = 1 ∧
        (Event.start ∈ (main env (.ok o) fuel w).trace →
          ∃ e, (engineCalls (main env (.ok o) fuel w).trace).getLast? =
              some (.update (some e)) ∨
            (engineCalls (main env (.ok o) fuel w).trace).getLast? =
              some (.read (some e))) ∧
        (Event.start ∉ (main env (.ok o) fuel w).trace → (setup env o w).out = .exit 1)) ∧
    ((∃ d, Event.done d ∈ (main env (.ok o) fuel w).trace) ↔
      o.Watch = false ∧
        (main env (.ok o) fuel w).trace.filter Event.isUpdate = [.update none]) := by
  rcases main_calls env o fuel w with ⟨hs, h1, hout⟩ | ⟨hs, l, h1, hc⟩
  · have hne := not_engine_of_engineCalls_nil h1
    constructor
    · intro _
      constructor
      · intro x hx
        simp [Event.not_engine_class (hne x hx)]
      · intro c hc
        rw [exitStatus_of_out hout] at hc
        cases hc
        refine ⟨rfl, ?_, fun _ => hs⟩
        intro hmem
        have := hne _ hmem
        cases this
    · rw [← filter_isUpdate_engineCalls, h1]
      constructor
      · rintro ⟨d, hd⟩
        have := hne _ hd
        cases this
      · rintro ⟨_, h⟩
        cases h
  · obtain ⟨e1, e2, e3, e4⟩ := hc.ending
    constructor
    · intro hw
      obtain ⟨hnok, hnd⟩ := e2 hw
      constructor
      · intro x hx
        by_cases hxe : x.isEngineCall = true
        · have hx2 : x ∈ engineCalls (main env (.ok o) fuel w).trace :=
            (mem_engineCalls hxe).2 hx
          rw [h1, List.mem_cons] at hx2
          rcases hx2 with h | h
          · subst h
            rfl
          · exact hnd x h
        · have : x.isEngineCall = false := by simpa using hxe
          simp [Event.not_engine_class this]
      · intro c hcx
        have hout : (main env (.ok o) fuel w).out = .exit c := by
          unfold exitStatus at hcx
          cases hm : (main env (.ok o) fuel w).out with
          | ok u => exact absurd hm hnok
          | exit c2 =>
            rw [hm] at hcx
            cases hcx
            rfl
          | running =>
            rw [hm] at hcx
            cases hcx
        obtain ⟨hc1, e, he⟩ := e1 c hout
        refine ⟨hc1, fun _ => ⟨e, ?_⟩, ?_⟩
        · rw [h1]
          have hl : l ≠ [] := by
            intro h0
            subst h0
            rcases he with h | h <;> cases h
          rw [getLast?_cons_of_ne_nil hl]
          exact he
        · intro hns
          exfalso
          apply hns
          rw [← mem_engineCalls (x := Event.start) rfl, h1]
          exact List.mem_cons_self _ _
    · rw [← filter_isUpdate_engineCalls, h1]
      have hf : (Event.start :: l).filter Event.isUpdate = l.filter Event.isUpdate := by
        rw [List.filter_cons]
        rfl
      rw [hf, ← e3]
      constructor
      · rintro ⟨d, hd⟩
        have hd2 : Event.done d ∈ engineCalls (main env (.ok o) fuel w).trace :=
          (mem_engineCalls (x := Event.done d) rfl).2 hd
        rw [h1, List.mem_cons] at hd2
        rcases hd2 with h | h
        · cases h
        · exact ⟨d, h⟩
      · rintro ⟨d, hd⟩
        refine ⟨d, ?_⟩
        rw [← mem_engineCalls (x := Event.done d) rfl, h1]
        exact List.mem_cons_of_mem _ hd

/-- Witness of C10 (amended): a watch-enabled run ended by its second `Read`. -/
theorem main_done_iff_witness :
    watchOptions.Watch = true ∧
    exitStatus (main failingReadScript.env (.ok watchOptions) 3 0) = some 1 ∧
    Event.start ∈ (main failingReadScript.env (.ok watchOptions) 3 0).trace ∧
    ∃ e, (engineCalls (main failingReadScript.env (.ok watchOptions) 3 0).trace).getLast? =
        some (.update (some e)) ∨
      (engineCalls (main failingReadScript.env (.ok watchOptions) 3 0).trace).getLast? =
        some (.read (some e)) :=
  ⟨rfl, by decide, by decide,
    (((main_done_iff failingReadScript.env watchOptions 3 0).1 rfl).2 1 (by decide)).2.1
      (by decide)⟩

end NSUpdate
